import Mathlib

/-!
Verification of the vegabase data-access runtime (`pyreact_start.db`).

The embedding follows `src/pyreact_start/db/async_database.py` and
`src/pyreact_start/db/types.py`.  Parts of the package that are only
imported there (the hook chain of `hooks.py`, the error classes of
`errors.py`, the schema differ/applier of `schema.py`, and the underlying
engine's begin/commit/rollback scope) are not present in the source tree;
those are modelled from the specification and marked as such in their
doc comments.
-/

deriving instance DecidableEq for Except

namespace Vegabase

/-- A raw column value, as produced by the engine's row mapping. -/
inductive Value where
  | int (n : Int)
  | str (s : String)
  | null
  deriving DecidableEq, Repr

/-- A raw row: the `dict(row._mapping)` of the source, an association of
column names to values. -/
abbrev Row : Type := List (String × Value)

/-- Semantic type of a declared field of a Pydantic model. -/
inductive FieldType where
  | int
  | str
  deriving DecidableEq, Repr

/-- One declared field of a record schema: name, semantic type and whether
the field is required. -/
structure Field where
  name : String
  type : FieldType
  required : Bool
  deriving DecidableEq, Repr

/-- A record schema (the Pydantic model of the source): a model name and an
ordered list of declared fields. -/
structure RecModel where
  name : String
  fields : List Field
  deriving DecidableEq, Repr

/-- An opaque statement description; the binder never interprets it. -/
abbrev Stmt : Type := String

/-- Query parameters, as the optional `params` dict of the source. -/
abbrev Params : Type := List (String × Value)

/-- `TypedQuery` of `types.py`: an immutable pair of a record model and a
statement. -/
structure TypedQuery where
  model : RecModel
  statement : Stmt
  deriving DecidableEq

/-- `query` of `types.py`: builds the `TypedQuery` pair, pure, no I/O. -/
def query (model : RecModel) (statement : Stmt) : TypedQuery :=
  ⟨model, statement⟩

/-- `QueryContext` of the hook module: statement, model name, params and
the skip-validation flag, created per execution in `_execute`. -/
structure QueryContext where
  statement : Stmt
  model_name : String
  params : Params
  skip_validation : Bool
  deriving DecidableEq

/-- The error taxonomy of `errors.py` (absent from the source tree; the
constructors mirror the classes imported by `async_database.py`), plus a
constructor for engine/other exceptions and one for hook-remapped errors. -/
inductive Err where
  | notFound (msg : String)
  | tooManyRows (msg : String)
  | validation (msg : String) (details : List String)
  | engine (msg : String)
  | remapped (tag : String) (inner : Err)
  deriving DecidableEq, Repr

/-- Does a raw value satisfy a declared field type?  Null is accepted only
through absence handling; a present value must have the declared type. -/
def typeMatches (t : FieldType) (v : Value) : Bool :=
  match t, v with
  | FieldType.int, Value.int _ => true
  | FieldType.str, Value.str _ => true
  | _, _ => false

/-- Per-field validation errors of one raw row against a model, in declared
field order: a required field that is absent, or a present field whose value
has the wrong type.  Extra raw columns not in the schema are ignored. -/
def fieldErrors (m : RecModel) (row : Row) : List String :=
  m.fields.filterMap (fun f =>
    match List.lookup f.name row with
    | none => if f.required then some (f.name ++ ": missing") else none
    | some v => if typeMatches f.type v then none else some (f.name ++ ": wrong type"))

/-- The typed record produced from a raw row: the row projected onto the
declared fields (extra columns are ignored by validation). -/
def project (m : RecModel) (row : Row) : Row :=
  m.fields.filterMap (fun f => (List.lookup f.name row).map (fun v => (f.name, v)))

/-- `model.model_validate(row_dict)` of the source: full runtime validation.
Fails with `ValidationError` carrying the per-field error list when any
declared field is missing (and required) or has the wrong type. -/
def model_validate (m : RecModel) (row : Row) : Except Err Row :=
  match fieldErrors m row with
  | [] => Except.ok (project m row)
  | errs =>
      Except.error (Err.validation ("Row validation failed for " ++ m.name) errs)

/-- `model.model_construct(**row_dict)` of the source: the performance
bypass, constructing the record with no presence or type checks. -/
def model_construct (_m : RecModel) (row : Row) : Row :=
  row

/-- The body of the row-validation loop of `_execute`: construct without
checks when the flag is set, validate fully otherwise. -/
def validateOne (m : RecModel) (skip : Bool) (r : Row) : Except Err Row :=
  if skip then Except.ok (model_construct m r) else model_validate m r

/-- The row-validation loop of `_execute`: validate each row in order into
the declared record, or skip per flag; the first failure aborts the whole
call, and no partial list is surfaced. -/
def validateRows (m : RecModel) (skip : Bool) : List Row → Except Err (List Row)
  | [] => Except.ok []
  | r :: rs =>
      match validateOne m skip r with
      | Except.error e => Except.error e
      | Except.ok v =>
          match validateRows m skip rs with
          | Except.ok vs => Except.ok (v :: vs)
          | Except.error e => Except.error e

/-- Modelled from the spec: the `Hook` capability interface of the missing
`hooks.py` — three optional methods `before_execute`, `after_execute`,
`on_error`.  The type is parameterised over an observation state `σ`
threaded through every call (Python hooks are side-effecting objects);
`before_execute` returns the possibly rewritten context and may raise,
`after_execute` returns the transformed row list and may raise, and
`on_error` returns the (possibly remapped) error. -/
structure Hook (σ : Type) where
  before_execute : σ → QueryContext → σ × QueryContext × Option Err
  after_execute : σ → QueryContext → List Row → σ × Except Err (List Row)
  on_error : σ → QueryContext → Err → σ × Err

/-- Modelled from the spec: a hook chain is an ordered list of hooks,
registered once at database-handle construction. -/
abbrev HookChain (σ : Type) : Type := List (Hook σ)

/-- Modelled from the spec: `run_before` — each hook's `before_execute`
runs in chain order on the (possibly rewritten) context; a raising hook
stops the chain, and the last successfully produced context is kept. -/
def run_before {σ : Type} :
    HookChain σ → σ → QueryContext → σ × QueryContext × Option Err
  | [], s, ctx => (s, ctx, none)
  | h :: rest, s, ctx =>
      match h.before_execute s ctx with
      | (s1, ctx1, none) => run_before rest s1 ctx1
      | (s1, ctx1, some e) => (s1, ctx1, some e)

/-- Modelled from the spec: `run_after` — each hook's `after_execute` runs
in chain order, each hook receiving the previous hook's transformed rows
(not the original); a raising hook stops the chain. -/
def run_after {σ : Type} :
    HookChain σ → σ → QueryContext → List Row → σ × Except Err (List Row)
  | [], s, _, rows => (s, Except.ok rows)
  | h :: rest, s, ctx, rows =>
      match h.after_execute s ctx rows with
      | (s1, Except.ok rows1) => run_after rest s1 ctx rows1
      | (s1, Except.error e) => (s1, Except.error e)

/-- Modelled from the spec: `run_on_error` — each hook's `on_error` runs in
chain order on the previous hook's returned error; the final return value is
the error ultimately raised. -/
def run_on_error {σ : Type} : HookChain σ → σ → QueryContext → Err → σ × Err
  | [], s, _, e => (s, e)
  | h :: rest, s, ctx, e =>
      match h.on_error s ctx e with
      | (s1, e1) => run_on_error rest s1 ctx e1

/-- The engine's `execute(statement, params) -> rows` primitive: an opaque
effect mapping the (possibly hook-rewritten) context to raw rows or an
engine error. -/
def Engine : Type := QueryContext → Except Err (List Row)

/-- The `QueryContext` built at the start of `_execute` from the TypedQuery
and the call's parameters and flag. -/
def mkCtx (q : TypedQuery) (params : Params) (skip : Bool) : QueryContext :=
  ⟨q.statement, q.model.name, params, skip⟩

/-- `AsyncTypedConnection._execute` of the source: build the context, run
the before hooks, execute the statement at the rewritten context, run the
after hooks over the raw rows, validate each row against the model the
TypedQuery was constructed with; any exception raised inside is passed
through `run_on_error` and the chain's returned error is raised. -/
def execQuery {σ : Type} (hooks : HookChain σ) (engine : Engine)
    (q : TypedQuery) (params : Params) (skip : Bool) (s : σ) :
    σ × Except Err (List Row) :=
  match run_before hooks s (mkCtx q params skip) with
  | (s1, ctx1, some e) =>
      match run_on_error hooks s1 ctx1 e with
      | (s2, e1) => (s2, Except.error e1)
  | (s1, ctx1, none) =>
      match engine ctx1 with
      | Except.error e =>
          match run_on_error hooks s1 ctx1 e with
          | (s2, e1) => (s2, Except.error e1)
      | Except.ok raws =>
          match run_after hooks s1 ctx1 raws with
          | (s2, Except.error e) =>
              match run_on_error hooks s2 ctx1 e with
              | (s3, e1) => (s3, Except.error e1)
          | (s2, Except.ok rows) =>
              match validateRows q.model skip rows with
              | Except.error e =>
                  match run_on_error hooks s2 ctx1 e with
                  | (s3, e1) => (s3, Except.error e1)
              | Except.ok vs => (s2, Except.ok vs)

/-- `AsyncTypedConnection.one` of the source: execute, then require exactly
one validated row — the length checks run after `_execute` has returned. -/
def one {σ : Type} (hooks : HookChain σ) (engine : Engine)
    (q : TypedQuery) (params : Params) (skip : Bool) (s : σ) :
    σ × Except Err Row :=
  match execQuery hooks engine q params skip s with
  | (s1, Except.error e) => (s1, Except.error e)
  | (s1, Except.ok rows) =>
      if rows.length = 0 then
        (s1, Except.error (Err.notFound "Expected exactly 1 row, got 0"))
      else if rows.length > 1 then
        (s1, Except.error (Err.tooManyRows
          ("Expected exactly 1 row, got " ++ toString rows.length)))
      else
        (s1, Except.ok (rows.headD []))

/-- `AsyncTypedConnection.maybe_one` of the source: execute, then require at
most one validated row, returning `none` for zero rows. -/
def maybe_one {σ : Type} (hooks : HookChain σ) (engine : Engine)
    (q : TypedQuery) (params : Params) (skip : Bool) (s : σ) :
    σ × Except Err (Option Row) :=
  match execQuery hooks engine q params skip s with
  | (s1, Except.error e) => (s1, Except.error e)
  | (s1, Except.ok rows) =>
      if rows.length > 1 then
        (s1, Except.error (Err.tooManyRows
          ("Expected 0 or 1 row, got " ++ toString rows.length)))
      else
        (s1, Except.ok rows.head?)

/-- `AsyncTypedConnection.many` of the source: execute, then require at
least one validated row. -/
def many {σ : Type} (hooks : HookChain σ) (engine : Engine)
    (q : TypedQuery) (params : Params) (skip : Bool) (s : σ) :
    σ × Except Err (List Row) :=
  match execQuery hooks engine q params skip s with
  | (s1, Except.error e) => (s1, Except.error e)
  | (s1, Except.ok rows) =>
      if rows.length = 0 then
        (s1, Except.error (Err.notFound "Expected at least 1 row, got 0"))
      else
        (s1, Except.ok rows)

/-- `AsyncTypedConnection.any` of the source: execute and return the
validated rows, empty or not; never raises on account of the row count. -/
def anyRows {σ : Type} (hooks : HookChain σ) (engine : Engine)
    (q : TypedQuery) (params : Params) (skip : Bool) (s : σ) :
    σ × Except Err (List Row) :=
  execQuery hooks engine q params skip s

/-- The visible state of the target database, for the transaction model:
one table of rows is enough for the claims about atomicity. -/
abbrev DBState : Type := List Row

/-- Inserting one row into the database state. -/
def insertRow (r : Row) (db : DBState) : DBState :=
  List.append db [r]

/-- Modelled from the spec: the underlying engine's begin/commit/rollback
scope used by `AsyncDatabase.transaction` (`engine.begin()` is external to
the source tree).  The body runs against the current state inside one
atomic unit and yields its working state together with the exception it
raised, if any: normal exit from the scope commits the working state; an
exception propagating out of the scope rolls back to the entry state and is
re-raised unchanged. -/
def transactionScope (body : DBState → DBState × Option Err) (db : DBState) :
    Except Err Unit × DBState :=
  match body db with
  | (db1, none) => (Except.ok (), db1)
  | (_, some e) => (Except.error e, db)

/-- A transaction body that inserts one row and then raises: the insert is
visible in the working state handed back, and the exception follows it. -/
def insertThenRaise (r : Row) (e : Err) : DBState → DBState × Option Err :=
  fun db => (insertRow r db, some e)

/-! ## Schema differ and applier

The `schema.py` module (`plan`, `apply`, `SchemaChange`, `ChangeType`) is
imported by the tests but absent from the source tree; the definitions below
are modelled from the spec, §4.6 and §4.7. -/

/-- `ChangeType` of the schema module: the system is additive-only. -/
inductive ChangeType where
  | create_table
  | add_column
  deriving DecidableEq, Repr

/-- `SchemaChange` of the schema module: change type, table name, optional
detail (the column name for `add_column`). -/
structure SchemaChange where
  change_type : ChangeType
  table_name : String
  detail : Option String
  deriving DecidableEq, Repr

/-- One declared column of a declared table. -/
structure ColumnDecl where
  name : String
  deriving DecidableEq, Repr

/-- One declared table: name plus ordered column declarations. -/
structure TableDecl where
  name : String
  cols : List ColumnDecl
  deriving DecidableEq, Repr

/-- The caller's declared schema: ordered table declarations. -/
abbrev DeclaredSchema : Type := List TableDecl

/-- The live schema as introspected at plan/apply time: table name to the
live column names, `none` for a table that does not exist. -/
abbrev LiveSchema : Type := String → Option (List String)

/-- The `create_table` changes the differ emits: one per declared table
absent live, in declaration order, with no detail. -/
def createChanges (live : LiveSchema) (decl : DeclaredSchema) : List SchemaChange :=
  (decl.filter (fun t => (live t.name).isNone)).map
    (fun t => SchemaChange.mk ChangeType.create_table t.name none)

/-- The `add_column` changes the differ emits for one declared table: none
when the table does not exist live, otherwise one change per declared column
absent live, in column-declaration order. -/
def addChangesFor (live : LiveSchema) (t : TableDecl) : List SchemaChange :=
  match live t.name with
  | none => []
  | some liveCols =>
      (t.cols.filter (fun c => !liveCols.contains c.name)).map
        (fun c => SchemaChange.mk ChangeType.add_column t.name (some c.name))

/-- All `add_column` changes of a plan, in table-declaration order. -/
def addChanges (live : LiveSchema) (decl : DeclaredSchema) : List SchemaChange :=
  decl.flatMap (addChangesFor live)

/-- Modelled from the spec: `plan` — introspect the live inventory; for
every declared table absent live, one `create_table` change (no detail), in
declaration order; for every table present in both, one `add_column` change
per declared column absent live, carrying the column name as detail, in
per-table column-declaration order, listed after all `create_table`
changes.  Live tables or columns absent from the declaration are never
reported. -/
def plan (live : LiveSchema) (decl : DeclaredSchema) : List SchemaChange :=
  createChanges live decl ++ addChanges live decl

/-- Modelled from the spec: executing one `SchemaChange` against the live
database, with the engine's native create-table-if-missing and add-column
operations.  `create_table` creates the full declared table atomically (a
no-op when the table already exists); `add_column` appends the named column
to the table. -/
def applyChange (decl : DeclaredSchema) (live : LiveSchema) (c : SchemaChange) :
    LiveSchema :=
  match c.change_type with
  | ChangeType.create_table =>
      match live c.table_name with
      | some _ => live
      | none =>
          match decl.find? (fun t => t.name = c.table_name) with
          | none => live
          | some t =>
              fun n => if n = c.table_name then some (t.cols.map (·.name)) else live n
  | ChangeType.add_column =>
      match live c.table_name, c.detail with
      | some liveCols, some colName =>
          fun n => if n = c.table_name then some (liveCols ++ [colName]) else live n
      | _, _ => live

/-- Modelled from the spec: `apply` — call the differ, then execute each
change in the order produced, returning the changes actually applied
together with the resulting live schema. -/
def applySchema (live : LiveSchema) (decl : DeclaredSchema) :
    LiveSchema × List SchemaChange :=
  let changes := plan live decl
  (changes.foldl (applyChange decl) live, changes)

/-! ## Concrete instances used by witnesses -/

/-- A concrete record schema with two required fields. -/
def exModel : RecModel :=
  ⟨"User", [⟨"id", FieldType.int, true⟩, ⟨"name", FieldType.str, true⟩]⟩

/-- A concrete valid raw row for `exModel`. -/
def exRow1 : Row := [("id", Value.int 1), ("name", Value.str "alice")]

/-- A second concrete valid raw row for `exModel`. -/
def exRow2 : Row := [("id", Value.int 2), ("name", Value.str "bob")]

/-- A concrete TypedQuery over `exModel`. -/
def exQuery : TypedQuery := query exModel "SELECT id, name FROM users"

/-- An engine stub returning a fixed row list for every context. -/
def engineOf (rows : List Row) : Engine := fun _ => Except.ok rows

/-- A hook that records its calls in a string log, leaving the context and
rows untouched. -/
def traceHook (tag : String) : Hook (List String) :=
  ⟨fun s ctx => (List.append s [tag ++ ".before"], ctx, none),
   fun s _ rows => (List.append s [tag ++ ".after"], Except.ok rows),
   fun s _ e => (s, e)⟩

/-- A before hook that rewrites the whole context: statement, model name,
params and flag. -/
def rewriteHook : Hook Unit :=
  ⟨fun s _ => (s, ⟨"SELECT 1", "Other", [("p", Value.int 9)], true⟩, none),
   fun s _ rows => (s, Except.ok rows),
   fun s _ e => (s, e)⟩

/-- An engine stub observing the rewritten statement: it only succeeds on
the statement installed by `rewriteHook`. -/
def ctxSensitiveEngine : Engine := fun ctx =>
  if ctx.statement = "SELECT 1" then Except.ok [exRow1]
  else Except.error (Err.engine "no such statement")

/-- A hook whose `on_error` wraps every error it is handed. -/
def remapHook : Hook Unit :=
  ⟨fun s ctx => (s, ctx, none),
   fun s _ rows => (s, Except.ok rows),
   fun s _ e => (s, Err.remapped "wrapped" e)⟩

/-- A raw row for `exModel` missing the required `id` field. -/
def rBad : Row := [("name", Value.str "x")]

/-- An engine stub that always fails. -/
def failEngine : Engine := fun _ => Except.error (Err.engine "boom")

/-- A live database matches the declared schema when every declared table
exists live and carries every declared column. -/
def schemaMatches (live : LiveSchema) (decl : DeclaredSchema) : Prop :=
  ∀ t ∈ decl, ∃ cols, live t.name = some cols ∧
    ∀ c ∈ t.cols, c.name ∈ cols

/-- A concrete declared schema: an existing table gaining a column, plus a
new table. -/
def exDecl : DeclaredSchema :=
  [⟨"users", [⟨"id"⟩, ⟨"name"⟩, ⟨"email"⟩]⟩, ⟨"posts", [⟨"id"⟩]⟩]

/-- A concrete live schema holding only `users(id, name)`. -/
def exLive : LiveSchema :=
  fun n => if n = "users" then some ["id", "name"] else none

/-! ## Validation-loop lemmas -/

/-- With the skip flag set the loop constructs every row unchanged. -/
theorem validateRows_skip (m : RecModel) :
    ∀ rs : List Row, validateRows m true rs = Except.ok rs := by
  intro rs
  induction rs with
  | nil => rfl
  | cons r rs ih => simp [validateRows, validateOne, model_construct, ih]

/-- A successful validation loop is in ordered one-to-one correspondence
with the raw rows it was given. -/
theorem validateRows_ok_forall2 (m : RecModel) (skip : Bool) :
    ∀ (rs vs : List Row), validateRows m skip rs = Except.ok vs →
      List.Forall₂ (fun r v => validateOne m skip r = Except.ok v) rs vs := by
  intro rs
  induction rs with
  | nil =>
      intro vs h
      simp only [validateRows] at h
      cases h
      exact List.Forall₂.nil
  | cons r rs ih =>
      intro vs h
      simp only [validateRows] at h
      cases h1 : validateOne m skip r with
      | error e => rw [h1] at h; cases h
      | ok v =>
          rw [h1] at h
          cases h2 : validateRows m skip rs with
          | error e => rw [h2] at h; cases h
          | ok vs0 =>
              rw [h2] at h
              cases h
              exact List.Forall₂.cons h1 (ih vs0 h2)

/-! ## Theorems -/

/-- C2: for every TypedQuery, `one` returns the single validated record when
exactly one row is returned, raises `NotFoundError` when zero rows are
returned, and raises `TooManyRowsError` when two or more rows are
returned. -/
theorem one_cardinality_contract {σ : Type} (hooks : HookChain σ)
    (engine : Engine) (q : TypedQuery) (params : Params) (skip : Bool)
    (s s1 : σ) (rows : List Row)
    (h : execQuery hooks engine q params skip s = (s1, Except.ok rows)) :
    (∀ v, rows = [v] →
      one hooks engine q params skip s = (s1, Except.ok v)) ∧
    (rows = [] →
      one hooks engine q params skip s =
        (s1, Except.error (Err.notFound "Expected exactly 1 row, got 0"))) ∧
    (2 ≤ rows.length →
      one hooks engine q params skip s =
        (s1, Except.error (Err.tooManyRows
          ("Expected exactly 1 row, got " ++ toString rows.length)))) := by
  refine ⟨?_, ?_, ?_⟩
  · intro v hv
    subst hv
    simp [one, h]
  · intro hv
    subst hv
    simp [one, h]
  · intro hlen
    have h0 : ¬ rows.length = 0 := by omega
    have h1 : rows.length > 1 := by omega
    simp only [one, h]
    rw [if_neg h0, if_pos h1]

/-- C2 witness: a run returning exactly one row, on which `one` returns that
validated record. -/
theorem one_cardinality_contract_witness :
    execQuery ([] : HookChain Unit) (engineOf [exRow1]) exQuery [] false () =
      ((), Except.ok [exRow1]) ∧
    one ([] : HookChain Unit) (engineOf [exRow1]) exQuery [] false () =
      ((), Except.ok exRow1) :=
  ⟨by decide,
    (one_cardinality_contract ([] : HookChain Unit) (engineOf [exRow1]) exQuery
      [] false () () [exRow1] (by decide)).1 exRow1 rfl⟩

/-- C3: for every TypedQuery, `maybe_one` returns a null result for zero
rows, the single validated record for one row, and raises `TooManyRowsError`
for two or more rows. -/
theorem maybe_one_cardinality_contract {σ : Type} (hooks : HookChain σ)
    (engine : Engine) (q : TypedQuery) (params : Params) (skip : Bool)
    (s s1 : σ) (rows : List Row)
    (h : execQuery hooks engine q params skip s = (s1, Except.ok rows)) :
    (rows = [] →
      maybe_one hooks engine q params skip s = (s1, Except.ok none)) ∧
    (∀ v, rows = [v] →
      maybe_one hooks engine q params skip s = (s1, Except.ok (some v))) ∧
    (2 ≤ rows.length →
      maybe_one hooks engine q params skip s =
        (s1, Except.error (Err.tooManyRows
          ("Expected 0 or 1 row, got " ++ toString rows.length)))) := by
  refine ⟨?_, ?_, ?_⟩
  · intro hv
    subst hv
    simp [maybe_one, h]
  · intro v hv
    subst hv
    simp [maybe_one, h]
  · intro hlen
    have h1 : rows.length > 1 := by omega
    simp only [maybe_one, h]
    rw [if_pos h1]

/-- C3 witness: a run returning zero rows, on which `maybe_one` returns the
null result without raising. -/
theorem maybe_one_cardinality_contract_witness :
    execQuery ([] : HookChain Unit) (engineOf []) exQuery [] false () =
      ((), Except.ok []) ∧
    maybe_one ([] : HookChain Unit) (engineOf []) exQuery [] false () =
      ((), Except.ok none) :=
  ⟨by decide,
    (maybe_one_cardinality_contract ([] : HookChain Unit) (engineOf []) exQuery
      [] false () () [] (by decide)).1 rfl⟩

/-- C4: for every TypedQuery, `many` raises `NotFoundError` exactly when
zero rows are returned and otherwise returns the full validated list with no
upper bound, while `any` never raises on account of the row count and
returns the validated list, empty or not. -/
theorem many_any_cardinality_contract {σ : Type} (hooks : HookChain σ)
    (engine : Engine) (q : TypedQuery) (params : Params) (skip : Bool)
    (s s1 : σ) (rows : List Row)
    (h : execQuery hooks engine q params skip s = (s1, Except.ok rows)) :
    (rows = [] →
      many hooks engine q params skip s =
        (s1, Except.error (Err.notFound "Expected at least 1 row, got 0"))) ∧
    (rows ≠ [] →
      many hooks engine q params skip s = (s1, Except.ok rows)) ∧
    anyRows hooks engine q params skip s = (s1, Except.ok rows) := by
  refine ⟨?_, ?_, ?_⟩
  · intro hv
    subst hv
    simp [many, h]
  · intro hv
    have h0 : ¬ rows.length = 0 := by
      simpa [List.length_eq_zero] using hv
    simp only [many, h]
    rw [if_neg h0]
  · simpa [anyRows] using h

/-- C4 witness: a run returning two rows, on which `many` returns the full
validated list and `any` returns the same list. -/
theorem many_any_cardinality_contract_witness :
    execQuery ([] : HookChain Unit) (engineOf [exRow1, exRow2]) exQuery []
      false () = ((), Except.ok [exRow1, exRow2]) ∧
    many ([] : HookChain Unit) (engineOf [exRow1, exRow2]) exQuery []
      false () = ((), Except.ok [exRow1, exRow2]) :=
  ⟨by decide,
    (many_any_cardinality_contract ([] : HookChain Unit)
      (engineOf [exRow1, exRow2]) exQuery [] false () () [exRow1, exRow2]
      (by decide)).2.1 (by decide)⟩

/-- C5: with hooks H1 appended before H2, a successful execution runs
H1.before first (on the fresh context), then H2.before (on H1's rewritten
context and observation state), then H1.after (on the raw rows), then
H2.after — which receives the row list produced by H1.after, not the
original rows; the final observation state is the one H2.after returns. -/
theorem hook_chain_order {σ : Type} (H1 H2 : Hook σ) (engine : Engine)
    (q : TypedQuery) (params : Params) (skip : Bool)
    (s s1 s2 s3 s4 : σ) (ctx1 ctx2 : QueryContext)
    (raws rows1 rows2 vs : List Row)
    (hb1 : H1.before_execute s (mkCtx q params skip) = (s1, ctx1, none))
    (hb2 : H2.before_execute s1 ctx1 = (s2, ctx2, none))
    (he : engine ctx2 = Except.ok raws)
    (ha1 : H1.after_execute s2 ctx2 raws = (s3, Except.ok rows1))
    (ha2 : H2.after_execute s3 ctx2 rows1 = (s4, Except.ok rows2))
    (hv : validateRows q.model skip rows2 = Except.ok vs) :
    execQuery [H1, H2] engine q params skip s = (s4, Except.ok vs) := by
  simp [execQuery, run_before, run_after, hb1, hb2, he, ha1, ha2, hv]

/-- C5 witness: two logging hooks observe exactly the call order
H1.before, H2.before, H1.after, H2.after on a successful call. -/
theorem hook_chain_order_witness :
    execQuery [traceHook "H1", traceHook "H2"] (engineOf [exRow1]) exQuery []
      false [] =
      (["H1.before", "H2.before", "H1.after", "H2.after"],
        Except.ok [exRow1]) :=
  hook_chain_order (traceHook "H1") (traceHook "H2") (engineOf [exRow1])
    exQuery [] false [] ["H1.before"] ["H1.before", "H2.before"]
    ["H1.before", "H2.before", "H1.after"]
    ["H1.before", "H2.before", "H1.after", "H2.after"]
    (mkCtx exQuery [] false) (mkCtx exQuery [] false)
    [exRow1] [exRow1] [exRow1] [exRow1]
    rfl rfl rfl rfl rfl (by decide)

/-- C9: the TypedQuery's record-schema binding is immutable for the whole
hook chain: whatever context the before hooks produce (its statement,
params and even model name are unconstrained here, and the engine executes
the rewritten statement), every row is validated against `q.model`, the
model the TypedQuery was constructed with; the TypedQuery itself, an
immutable pair, is unchanged by the call. -/
theorem record_schema_binding_immutable {σ : Type} (hooks : HookChain σ)
    (engine : Engine) (q : TypedQuery) (params : Params) (skip : Bool)
    (s s1 s2 : σ) (ctx1 : QueryContext) (raws rows vs : List Row)
    (hb : run_before hooks s (mkCtx q params skip) = (s1, ctx1, none))
    (he : engine ctx1 = Except.ok raws)
    (ha : run_after hooks s1 ctx1 raws = (s2, Except.ok rows))
    (hv : validateRows q.model skip rows = Except.ok vs) :
    execQuery hooks engine q params skip s = (s2, Except.ok vs) := by
  simp [execQuery, hb, he, ha, hv]

/-- C9 witness: a before hook rewrites statement, params and model name;
the engine answers the rewritten statement, and the rows are still
validated against the model the TypedQuery was constructed with. -/
theorem record_schema_binding_immutable_witness :
    execQuery [rewriteHook] ctxSensitiveEngine exQuery [] false () =
      ((), Except.ok [exRow1]) :=
  record_schema_binding_immutable [rewriteHook] ctxSensitiveEngine exQuery []
    false () () () ⟨"SELECT 1", "Other", [("p", Value.int 9)], true⟩
    [exRow1] [exRow1] [exRow1] rfl rfl rfl (by decide)

/-- C10: when the after-hook stage returns the raw row list unchanged, the
list returned by the validating execution path contains exactly one typed
record per raw row returned by the engine, in the order the engine returned
them. -/
theorem one_record_per_raw_row {σ : Type} (hooks : HookChain σ)
    (engine : Engine) (q : TypedQuery) (params : Params) (skip : Bool)
    (s s1 s2 s3 : σ) (ctx1 : QueryContext) (raws vs : List Row)
    (hb : run_before hooks s (mkCtx q params skip) = (s1, ctx1, none))
    (he : engine ctx1 = Except.ok raws)
    (ha : run_after hooks s1 ctx1 raws = (s2, Except.ok raws))
    (hex : execQuery hooks engine q params skip s = (s3, Except.ok vs)) :
    vs.length = raws.length ∧
      List.Forall₂ (fun r v => validateOne q.model skip r = Except.ok v)
        raws vs := by
  have hstep : execQuery hooks engine q params skip s =
      (match validateRows q.model skip raws with
        | Except.error e =>
            match run_on_error hooks s2 ctx1 e with
            | (s4, e1) => (s4, Except.error e1)
        | Except.ok ws => (s2, Except.ok ws)) := by
    simp [execQuery, hb, he, ha]
  rw [hstep] at hex
  cases hvv : validateRows q.model skip raws with
  | error e =>
      rw [hvv] at hex
      rcases hre : run_on_error hooks s2 ctx1 e with ⟨s4, e1⟩
      simp [hre] at hex
  | ok ws =>
      rw [hvv] at hex
      have hws : ws = vs := by
        injection hex with h1 h2
        injection h2
      subst hws
      have h2 := validateRows_ok_forall2 q.model skip raws ws hvv
      exact ⟨(List.Forall₂.length_eq h2).symm, h2⟩

/-- C10 witness: with no hooks and two engine rows, the validated list has
one record per raw row, in engine order. -/
theorem one_record_per_raw_row_witness :
    [exRow1, exRow2].length = [exRow1, exRow2].length ∧
      List.Forall₂
        (fun r v => validateOne exQuery.model false r = Except.ok v)
        [exRow1, exRow2] [exRow1, exRow2] :=
  one_record_per_raw_row ([] : HookChain Unit) (engineOf [exRow1, exRow2])
    exQuery [] false () () () () (mkCtx exQuery [] false)
    [exRow1, exRow2] [exRow1, exRow2] rfl rfl rfl (by decide)

/-- C6: for the identical raw row missing a declared required field, the
call with `skip_validation = true` does not raise and constructs the record
without presence or type checks, while the call with `skip_validation =
false` raises `ValidationError` carrying the per-field error list — the
whole call aborts with an error, so no partial results are surfaced. -/
theorem skip_validation_dichotomy (engine : Engine) (q : TypedQuery)
    (params : Params) (r : Row) (f : Field)
    (hf : f ∈ q.model.fields) (hreq : f.required = true)
    (hmiss : List.lookup f.name r = none)
    (heng : ∀ sk : Bool, engine (mkCtx q params sk) = Except.ok [r]) :
    execQuery ([] : HookChain Unit) engine q params true () =
      ((), Except.ok [model_construct q.model r]) ∧
    ∃ details,
      execQuery ([] : HookChain Unit) engine q params false () =
        ((), Except.error (Err.validation
          ("Row validation failed for " ++ q.model.name) details)) ∧
      (f.name ++ ": missing") ∈ details := by
  constructor
  · have h1 := heng true
    simp [execQuery, run_before, run_after, h1, validateRows_skip,
      model_construct]
  · have hmem : (f.name ++ ": missing") ∈ fieldErrors q.model r := by
      simp only [fieldErrors]
      apply List.mem_filterMap.2
      refine ⟨f, hf, ?_⟩
      rw [hmiss]
      simp [hreq]
    cases herrs : fieldErrors q.model r with
    | nil =>
        rw [herrs] at hmem
        cases hmem
    | cons d ds =>
        refine ⟨d :: ds, ?_, ?_⟩
        · have h1 := heng false
          simp [execQuery, run_before, run_after, run_on_error, h1,
            validateRows, validateOne, model_validate, herrs]
        · rw [herrs] at hmem
          exact hmem

/-- C6 witness: the row `{name: "x"}` under a model requiring `id` — no
error with skip, `ValidationError` naming the missing field without. -/
theorem skip_validation_dichotomy_witness :
    execQuery ([] : HookChain Unit) (engineOf [rBad]) exQuery [] true () =
      ((), Except.ok [model_construct exQuery.model rBad]) ∧
    ∃ details,
      execQuery ([] : HookChain Unit) (engineOf [rBad]) exQuery [] false () =
        ((), Except.error (Err.validation
          ("Row validation failed for " ++ exQuery.model.name) details)) ∧
      ("id" ++ ": missing") ∈ details :=
  skip_validation_dichotomy (engineOf [rBad]) exQuery [] rBad
    ⟨"id", FieldType.int, true⟩ (by decide) rfl rfl (fun _ => rfl)

/-- C1 counterexample: with a registered hook whose `on_error` wraps every
error, a zero-row `one` call raises the bare `NotFoundError` — not the hook
chain's return value, which would be the wrapped error — so the
cardinality-contract errors do not pass through `run_on_error`. -/
theorem cardinality_error_bypasses_on_error_hooks :
    one [remapHook] (engineOf []) exQuery [] false () =
      ((), Except.error (Err.notFound "Expected exactly 1 row, got 0")) ∧
    (run_on_error [remapHook] () (mkCtx exQuery [] false)
        (Err.notFound "Expected exactly 1 row, got 0")).2 =
      Err.remapped "wrapped" (Err.notFound "Expected exactly 1 row, got 0") ∧
    Err.notFound "Expected exactly 1 row, got 0" ≠
      Err.remapped "wrapped"
        (Err.notFound "Expected exactly 1 row, got 0") := by
  refine ⟨by decide, by decide, by decide⟩

/-- C1 amended: any exception raised during `run_before`, statement
execution, `run_after` or row validation (steps 2–5) is passed through
`run_on_error` before propagating, and the error the connection raises is
`run_on_error`'s return value; the cardinality-contract errors
(`NotFoundError`/`TooManyRowsError` raised by the cardinality methods after
`_execute` has returned) propagate directly, without passing through
`run_on_error`. -/
theorem pipeline_errors_pass_through_on_error {σ : Type}
    (hooks : HookChain σ) (engine : Engine) (q : TypedQuery)
    (params : Params) (skip : Bool) (s : σ) :
    (∀ s1 ctx1 e,
      run_before hooks s (mkCtx q params skip) = (s1, ctx1, some e) →
      execQuery hooks engine q params skip s =
        ((run_on_error hooks s1 ctx1 e).1,
          Except.error (run_on_error hooks s1 ctx1 e).2)) ∧
    (∀ s1 ctx1 e,
      run_before hooks s (mkCtx q params skip) = (s1, ctx1, none) →
      engine ctx1 = Except.error e →
      execQuery hooks engine q params skip s =
        ((run_on_error hooks s1 ctx1 e).1,
          Except.error (run_on_error hooks s1 ctx1 e).2)) ∧
    (∀ s1 ctx1 raws s2 e,
      run_before hooks s (mkCtx q params skip) = (s1, ctx1, none) →
      engine ctx1 = Except.ok raws →
      run_after hooks s1 ctx1 raws = (s2, Except.error e) →
      execQuery hooks engine q params skip s =
        ((run_on_error hooks s2 ctx1 e).1,
          Except.error (run_on_error hooks s2 ctx1 e).2)) ∧
    (∀ s1 ctx1 raws s2 rows e,
      run_before hooks s (mkCtx q params skip) = (s1, ctx1, none) →
      engine ctx1 = Except.ok raws →
      run_after hooks s1 ctx1 raws = (s2, Except.ok rows) →
      validateRows q.model skip rows = Except.error e →
      execQuery hooks engine q params skip s =
        ((run_on_error hooks s2 ctx1 e).1,
          Except.error (run_on_error hooks s2 ctx1 e).2)) ∧
    (∀ s1, execQuery hooks engine q params skip s = (s1, Except.ok []) →
      one hooks engine q params skip s =
        (s1, Except.error (Err.notFound "Expected exactly 1 row, got 0"))) := by
  refine ⟨?_, ?_, ?_, ?_, ?_⟩
  · intro s1 ctx1 e hb
    rcases hre : run_on_error hooks s1 ctx1 e with ⟨s2, e1⟩
    simp [execQuery, hb, hre]
  · intro s1 ctx1 e hb he
    rcases hre : run_on_error hooks s1 ctx1 e with ⟨s2, e1⟩
    simp [execQuery, hb, he, hre]
  · intro s1 ctx1 raws s2 e hb he ha
    rcases hre : run_on_error hooks s2 ctx1 e with ⟨s3, e1⟩
    simp [execQuery, hb, he, ha, hre]
  · intro s1 ctx1 raws s2 rows e hb he ha hv
    rcases hre : run_on_error hooks s2 ctx1 e with ⟨s3, e1⟩
    simp [execQuery, hb, he, ha, hv, hre]
  · intro s1 hex
    simp [one, hex]

/-- C1 amended witness: an engine failure under the wrapping hook is raised
as the hook chain's wrapped error. -/
theorem pipeline_errors_pass_through_on_error_witness :
    execQuery [remapHook] failEngine exQuery [] false () =
      ((), Except.error (Err.remapped "wrapped" (Err.engine "boom"))) :=
  ((pipeline_errors_pass_through_on_error [remapHook] failEngine exQuery []
    false ()).2.1 () (mkCtx exQuery [] false) (Err.engine "boom")
    rfl rfl).trans rfl

/-- C7: a transaction scope commits the unit of work on normal exit; an
exception propagating out of the scope rolls the state back and is re-raised
unchanged; in particular a row inserted inside a scope that then raises was
present in the working state but is absent from a subsequent read of the
committed state. -/
theorem transaction_commit_rollback (db : DBState) :
    (∀ body db1, body db = (db1, none) →
      transactionScope body db = (Except.ok (), db1)) ∧
    (∀ body db1 e, body db = (db1, some e) →
      transactionScope body db = (Except.error e, db)) ∧
    (∀ r e, r ∉ db →
      transactionScope (insertThenRaise r e) db = (Except.error e, db) ∧
      r ∈ (insertThenRaise r e db).1 ∧
      r ∉ (transactionScope (insertThenRaise r e) db).2) := by
  refine ⟨?_, ?_, ?_⟩
  · intro body db1 h
    simp [transactionScope, h]
  · intro body db1 e h
    simp [transactionScope, h]
  · intro r e hr
    refine ⟨?_, ?_, ?_⟩
    · simp [transactionScope, insertThenRaise]
    · simp [insertThenRaise, insertRow]
    · simpa [transactionScope, insertThenRaise] using hr

/-- C7 witness: inserting a row into an empty database and raising inside
the scope leaves the row absent from the committed state. -/
theorem transaction_commit_rollback_witness :
    transactionScope (insertThenRaise exRow1 (Err.engine "boom")) [] =
      (Except.error (Err.engine "boom"), []) ∧
    exRow1 ∈ (insertThenRaise exRow1 (Err.engine "boom") []).1 ∧
    exRow1 ∉ (transactionScope (insertThenRaise exRow1 (Err.engine "boom"))
      []).2 :=
  (transaction_commit_rollback []).2.2 exRow1 (Err.engine "boom") (by decide)

/-! ## Schema differ/applier lemmas -/

/-- Applying a change for another table leaves a table's live columns
unchanged. -/
theorem applyChange_other (decl : DeclaredSchema) (live : LiveSchema)
    (c : SchemaChange) (n : String) (h : c.table_name ≠ n) :
    applyChange decl live c n = live n := by
  rcases c with ⟨ct, tn, det⟩
  simp only at h
  cases ct with
  | create_table =>
      simp only [applyChange]
      cases hl : live tn with
      | some cols => rfl
      | none =>
          cases hf : decl.find? (fun t => t.name = tn) with
          | none => rfl
          | some t => simp [Ne.symm h]
  | add_column =>
      simp only [applyChange]
      cases hl : live tn with
      | none => cases det <;> rfl
      | some cols =>
          cases det with
          | none => rfl
          | some cn => simp [Ne.symm h]

/-- Applying a list of changes none of which targets a table leaves that
table's live columns unchanged. -/
theorem foldl_applyChange_other (decl : DeclaredSchema) (n : String) :
    ∀ (cs : List SchemaChange) (live : LiveSchema),
      (∀ c ∈ cs, c.table_name ≠ n) →
      List.foldl (applyChange decl) live cs n = live n := by
  intro cs
  induction cs with
  | nil => intro live _; rfl
  | cons c cs ih =>
      intro live h
      rw [List.foldl_cons]
      rw [ih _ (fun c1 hc1 => h c1 (List.mem_cons_of_mem c hc1))]
      exact applyChange_other decl live c n (h c (List.mem_cons_self c cs))

/-- Under distinct declared table names, `find?` over the declaration
returns a declared table itself. -/
theorem find?_decl_eq (decl : DeclaredSchema)
    (hT : (decl.map TableDecl.name).Nodup) :
    ∀ t ∈ decl, decl.find? (fun u => u.name = t.name) = some t := by
  induction decl with
  | nil => intro t ht; cases ht
  | cons u ds ih =>
      intro t ht
      rcases List.mem_cons.1 ht with rfl | ht'
      · exact List.find?_cons_of_pos _ (by simp)
      · have hne : u.name ≠ t.name := by
          intro he
          have : t.name ∈ ds.map TableDecl.name :=
            List.mem_map.2 ⟨t, ht', rfl⟩
          rw [List.map_cons, List.nodup_cons] at hT
          exact hT.1 (he ▸ this)
        rw [List.find?_cons_of_neg _ (by simp [hne])]
        rw [List.map_cons, List.nodup_cons] at hT
        exact ih hT.2 t ht'

/-- Folding the `create_table` changes of a pairwise-distinct table list
sets each of those tables to exactly its declared columns. -/
theorem foldl_creates_sets (decl : DeclaredSchema) :
    ∀ (ts : List TableDecl) (live : LiveSchema),
      (ts.map TableDecl.name).Nodup →
      (∀ u ∈ ts, decl.find? (fun v => v.name = u.name) = some u) →
      (∀ u ∈ ts, live u.name = none) →
      ∀ t ∈ ts,
        List.foldl (applyChange decl) live
          (ts.map (fun u => SchemaChange.mk ChangeType.create_table u.name none))
          t.name = some (t.cols.map ColumnDecl.name) := by
  intro ts
  induction ts with
  | nil => intro live _ _ _ t ht; cases ht
  | cons u ts ih =>
      intro live hnd hfind hnone t ht
      have hu_none : live u.name = none := hnone u (List.mem_cons_self u ts)
      have hu_find := hfind u (List.mem_cons_self u ts)
      have hnotin : u.name ∉ ts.map TableDecl.name := by
        rw [List.map_cons, List.nodup_cons] at hnd
        exact hnd.1
      have hstep : applyChange decl live
          (SchemaChange.mk ChangeType.create_table u.name none) =
          fun n => if n = u.name then some (u.cols.map ColumnDecl.name)
                   else live n := by
        simp only [applyChange, hu_none, hu_find]
      rw [List.map_cons, List.foldl_cons, hstep]
      rcases List.mem_cons.1 ht with rfl | ht'
      · have hrest : ∀ c ∈ ts.map
            (fun v => SchemaChange.mk ChangeType.create_table v.name none),
            c.table_name ≠ t.name := by
          intro c hc
          rcases List.mem_map.1 hc with ⟨v, hv, rfl⟩
          simp only
          intro he
          exact hnotin (he ▸ List.mem_map.2 ⟨v, hv, rfl⟩)
        rw [foldl_applyChange_other decl t.name _ _ hrest]
        simp
      · apply ih _ ?_ ?_ ?_ t ht'
        · rw [List.map_cons, List.nodup_cons] at hnd
          exact hnd.2
        · intro v hv
          exact hfind v (List.mem_cons_of_mem u hv)
        · intro v hv
          have hvne : v.name ≠ u.name := by
            intro he
            exact hnotin (he ▸ List.mem_map.2 ⟨v, hv, rfl⟩)
          simp only [if_neg hvne]
          exact hnone v (List.mem_cons_of_mem u hv)

/-- Folding a run of `add_column` changes for one table appends exactly
those column names to the table's live columns. -/
theorem foldl_adds_appends (decl : DeclaredSchema) (names : List String) :
    ∀ (live : LiveSchema) (n : String) (cols : List String),
      live n = some cols →
      List.foldl (applyChange decl) live
        (names.map (fun cn => SchemaChange.mk ChangeType.add_column n (some cn)))
        n = some (cols ++ names) := by
  induction names with
  | nil =>
      intro live n cols h
      simpa using h
  | cons cn cns ih =>
      intro live n cols h
      rw [List.map_cons, List.foldl_cons]
      have hstep : applyChange decl live
          (SchemaChange.mk ChangeType.add_column n (some cn)) =
          fun m => if m = n then some (cols ++ [cn]) else live m := by
        simp only [applyChange, h]
      rw [hstep]
      rw [ih _ n (cols ++ [cn]) (by simp)]
      simp

/-- Every change the differ emits for one table targets that table, and
only tables present live get `add_column` changes. -/
theorem mem_addChangesFor (live : LiveSchema) (u : TableDecl)
    (c : SchemaChange) (hc : c ∈ addChangesFor live u) :
    c.table_name = u.name ∧ ∃ cols, live u.name = some cols := by
  unfold addChangesFor at hc
  cases hlu : live u.name with
  | none =>
      rw [hlu] at hc
      cases hc
  | some cols =>
      rw [hlu] at hc
      rcases List.mem_map.1 hc with ⟨cd, _, rfl⟩
      exact ⟨rfl, cols, rfl⟩

/-- A live database matching the declared schema yields an empty plan. -/
theorem plan_empty_of_matches (live : LiveSchema) (decl : DeclaredSchema)
    (h : schemaMatches live decl) : plan live decl = [] := by
  unfold plan
  rw [List.append_eq_nil]
  constructor
  · unfold createChanges
    rw [List.map_eq_nil_iff, List.filter_eq_nil_iff]
    intro t ht
    rcases h t ht with ⟨cols, hc, _⟩
    simp [hc]
  · unfold addChanges
    rw [List.flatMap_eq_nil_iff]
    intro t ht
    rcases h t ht with ⟨cols, hc, hmem⟩
    unfold addChangesFor
    rw [hc]
    have hfil : t.cols.filter (fun c => !cols.contains c.name) = [] := by
      rw [List.filter_eq_nil_iff]
      intro c hcm
      simp [hmem c hcm]
    simp [hfil]
    exact hmem

/-- After a successful apply of a declared schema with distinct table
names, the live database matches the declared schema. -/
theorem applySchema_matches (live : LiveSchema) (decl : DeclaredSchema)
    (hT : (decl.map TableDecl.name).Nodup) :
    schemaMatches (applySchema live decl).1 decl := by
  have happ : (applySchema live decl).1 =
      List.foldl (applyChange decl)
        (List.foldl (applyChange decl) live (createChanges live decl))
        (addChanges live decl) := by
    simp [applySchema, plan, List.foldl_append]
  intro t ht
  cases hl : live t.name with
  | none =>
      have hC : List.foldl (applyChange decl) live (createChanges live decl)
          t.name = some (t.cols.map ColumnDecl.name) := by
        unfold createChanges
        refine foldl_creates_sets decl _ live ?_ ?_ ?_ t ?_
        · exact ((List.filter_sublist decl).map TableDecl.name).nodup hT
        · intro u hu
          exact find?_decl_eq decl hT u (List.mem_of_mem_filter hu)
        · intro u hu
          have h2 := List.of_mem_filter hu
          simpa [Option.isNone_iff_eq_none] using h2
        · exact List.mem_filter.2 ⟨ht, by simp [hl]⟩
      have hA : ∀ c ∈ addChanges live decl, c.table_name ≠ t.name := by
        intro c hc
        unfold addChanges at hc
        rcases List.mem_flatMap.1 hc with ⟨u, hu, hcu⟩
        obtain ⟨heq, cols, hcols⟩ := mem_addChangesFor live u c hcu
        rw [heq]
        intro he
        rw [he, hl] at hcols
        cases hcols
      refine ⟨t.cols.map ColumnDecl.name, ?_, ?_⟩
      · rw [happ, foldl_applyChange_other decl t.name _ _ hA, hC]
      · intro c hc
        exact List.mem_map_of_mem ColumnDecl.name hc
  | some cols0 =>
      have hC : List.foldl (applyChange decl) live (createChanges live decl)
          t.name = some cols0 := by
        rw [foldl_applyChange_other decl t.name _ live ?_]
        · exact hl
        · intro c hc
          unfold createChanges at hc
          rcases List.mem_map.1 hc with ⟨u, hu, rfl⟩
          simp only
          intro he
          have hu2 := List.of_mem_filter hu
          rw [he, hl] at hu2
          simp at hu2
      obtain ⟨pre, post, hdecl⟩ := List.append_of_mem ht
      have hnames : t.name ∉ pre.map TableDecl.name ∧
          t.name ∉ post.map TableDecl.name := by
        rw [hdecl, List.map_append, List.map_cons, List.nodup_append] at hT
        obtain ⟨h1, h2, h3⟩ := hT
        rw [List.nodup_cons] at h2
        exact ⟨fun hm => h3 hm (List.mem_cons_self _ _), h2.1⟩
      have hsplit : addChanges live decl =
          pre.flatMap (addChangesFor live) ++
            (addChangesFor live t ++ post.flatMap (addChangesFor live)) := by
        rw [addChanges, hdecl]
        simp
      have hpre : ∀ c ∈ pre.flatMap (addChangesFor live),
          c.table_name ≠ t.name := by
        intro c hc
        rcases List.mem_flatMap.1 hc with ⟨u, hu, hcu⟩
        rw [(mem_addChangesFor live u c hcu).1]
        intro he
        exact hnames.1 (he ▸ List.mem_map_of_mem TableDecl.name hu)
      have hpost : ∀ c ∈ post.flatMap (addChangesFor live),
          c.table_name ≠ t.name := by
        intro c hc
        rcases List.mem_flatMap.1 hc with ⟨u, hu, hcu⟩
        rw [(mem_addChangesFor live u c hcu).1]
        intro he
        exact hnames.2 (he ▸ List.mem_map_of_mem TableDecl.name hu)
      have hmid : addChangesFor live t =
          ((t.cols.filter (fun c => !cols0.contains c.name)).map
            ColumnDecl.name).map
            (fun cn => SchemaChange.mk ChangeType.add_column t.name
              (some cn)) := by
        unfold addChangesFor
        rw [hl, List.map_map]
        rfl
      have hpreC : List.foldl (applyChange decl)
          (List.foldl (applyChange decl) live (createChanges live decl))
          (pre.flatMap (addChangesFor live)) t.name = some cols0 := by
        rw [foldl_applyChange_other decl t.name _ _ hpre]
        exact hC
      have hfinal : (applySchema live decl).1 t.name =
          some (cols0 ++ (t.cols.filter
            (fun c => !cols0.contains c.name)).map ColumnDecl.name) := by
        rw [happ, hsplit, List.foldl_append, List.foldl_append]
        rw [foldl_applyChange_other decl t.name _ _ hpost]
        rw [hmid, foldl_adds_appends decl _ _ t.name cols0 hpreC]
      refine ⟨_, hfinal, ?_⟩
      intro c hc
      by_cases hmem : c.name ∈ cols0
      · exact List.mem_append.2 (Or.inl hmem)
      · refine List.mem_append.2 (Or.inr ?_)
        refine List.mem_map.2 ⟨c, ?_, rfl⟩
        refine List.mem_filter.2 ⟨hc, ?_⟩
        simp [hmem]

/-- C8: `plan` is idempotent with `apply` — for a declared schema with
distinct table names, the plan computed immediately after a successful
apply of that same schema against the same database is empty, and any
database already matching the declared schema yields an empty plan. -/
theorem plan_apply_idempotent (live : LiveSchema) (decl : DeclaredSchema)
    (hT : (decl.map TableDecl.name).Nodup) :
    plan (applySchema live decl).1 decl = [] ∧
    (schemaMatches live decl → plan live decl = []) :=
  ⟨plan_empty_of_matches _ _ (applySchema_matches live decl hT),
    fun h => plan_empty_of_matches _ _ h⟩

/-- C8 witness: applying a schema that both creates a table and adds a
column, then planning again, yields the empty change list. -/
theorem plan_apply_idempotent_witness :
    (exDecl.map TableDecl.name).Nodup ∧
    plan (applySchema exLive exDecl).1 exDecl = [] :=
  ⟨by decide, (plan_apply_idempotent exLive exDecl (by decide)).1⟩

end Vegabase
